import Mathlib

/-!
Verification of the price-judgment engine of the Aqari-Al-Dhaki repository
(`app.py`): feature encoding, market-grid simulation, statistical
summarization, the ordered price-judgment rule chain, and attribution
grouping.  Python floats are modelled as rationals (`ℚ`), pandas rows as
association lists keyed by the Arabic column-name strings of the source,
and the externally loaded artifacts (`feature_columns`, `city_categories`,
the regression model) as parameters.
-/

namespace Aqari

/-- Listing attributes as accepted by the API (`PredictIn` in `app.py`).
Field names transliterate the source's Arabic names:
`rooms` = عدد_الغرف, `baths` = عدد_الحمامات, `furnished` = مفروشة,
`area` = مساحة_البناء, `floor` = الطابق, `age` = عمر_البناء,
`mortgaged` = العقار_مرهون, `payment` = طريقة_الدفع,
`parking` = موقف_سيارات (optional, may be absent = `none`),
`city` = المدينة. -/
structure PredictIn where
  rooms : ℕ
  baths : ℕ
  furnished : ℕ
  area : ℚ
  floor : ℤ
  age : ℕ
  mortgaged : ℕ
  payment : ℤ
  parking : Option ℕ
  city : String
deriving DecidableEq, Repr

/-- Judge request: the listing attributes plus the user's asking price
(`JudgeIn` in `app.py`). -/
structure JudgeIn extends PredictIn where
  listed_price : ℚ
deriving DecidableEq, Repr

/-- Python truthiness of the optional parking flag `موقف_سيارات`
(`None` and `0` are falsy, `1` is truthy). -/
def parkingTruthy : Option ℕ → Bool
  | none => false
  | some n => n ≠ 0

/-- `map_building_age` from `app.py`: bucket a raw building age. -/
def map_building_age (age : ℕ) : ℕ :=
  if age = 0 then 0
  else if age = 1 then 1
  else if 2 ≤ age ∧ age ≤ 5 then 2
  else if 6 ≤ age ∧ age ≤ 9 then 3
  else if 10 ≤ age ∧ age ≤ 19 then 4
  else 5

/-- `CITY_PREFIX` from `app.py`: the string prepended to a city name to form
its one-hot indicator column name. -/
def cityPfx : String := "المدينة_"

/-- The `base` dict of `build_model_input`: training-key column names
(values of `TRAIN_KEYS`) mapped to the payload's numeric attributes;
`none` for a column name that is not a key of `base`. -/
def baseVal (p : PredictIn) (col : String) : Option ℚ :=
  if col = "عدد الغرف" then some p.rooms
  else if col = "عدد الحمامات" then some p.baths
  else if col = "مفروشة" then some p.furnished
  else if col = "مساحة البناء" then some p.area
  else if col = "الطابق" then some p.floor
  else if col = "عمر البناء" then some (map_building_age p.age)
  else if col = "العقار مرهون" then some p.mortgaged
  else if col = "طريقة الدفع" then some p.payment
  else none

/-- Value of the `city_cols` dict of `build_model_input` at key `col`
(for `col` a key of `city_cols`, i.e. `col = cityPfx ++ c` with
`c ∈ cats`): all indicators start at 0; the payload's city's indicator is
set to 1 when the city is in `city_categories`; otherwise the fallback
indicator `cityPfx ++ "أخرى"` is set to 1 when that key exists. -/
def cityColVal (cats : List String) (city : String) (col : String) : ℚ :=
  if city ∈ cats then (if col = cityPfx ++ city then 1 else 0)
  else if "أخرى" ∈ cats then (if col = cityPfx ++ "أخرى" then 1 else 0)
  else 0

/-- Value of the merged dict `row = {**base, **city_cols}` at key `col`:
a `city_cols` key takes the `city_cols` value (dict merge lets the second
dict win; in fact the key sets are disjoint), otherwise the `base` value;
`none` when `col` is a key of neither. -/
def mergedVal (cats : List String) (p : PredictIn) (col : String) : Option ℚ :=
  if ∃ c ∈ cats, col = cityPfx ++ c then some (cityColVal cats p.city col)
  else baseVal p col

/-- `build_model_input` from `app.py`: the single-row DataFrame after
`df.reindex(columns=feature_columns, fill_value=0)`, as the ordered list
of (column name, value) pairs — one pair per entry of `feature_columns`,
with value 0 for a column the row does not populate. -/
def build_model_input (fcols cats : List String) (p : PredictIn) :
    List (String × ℚ) :=
  fcols.map fun col => (col, (mergedVal cats p col).getD 0)

/-- Boolean test that the first character list is an initial segment of the
second; `listPfx cityPfx.data col.data` models `col.startswith(CITY_PREFIX)`. -/
def listPfx : List Char → List Char → Bool
  | [], _ => true
  | _ :: _, [] => false
  | a :: as, b :: bs => a == b && listPfx as bs

/-- Python's `round(x, 2)` / `np.round(x, 2)` on the rational model of a
float: round `100·x` to the nearest integer and divide back. -/
def round2 (q : ℚ) : ℚ := (round (q * 100) : ℤ) / 100

/-- The tuples (rooms, baths, age, floor, furnished, payment, mortgaged)
enumerated by the seven nested loops of `judge_price` (lines 195–210 of
`app.py`), in the source's loop order: `range(1, 5)`, `range(1, 4)`,
`[0, 5, 9, 19, 20]`, `[0, 1, 2, 3, 4, 11]`, `[0, 1]`, `[0, 1, 2]`,
`[0, 1]`. -/
def gridTuples : List (ℕ × ℕ × ℕ × ℤ × ℕ × ℤ × ℕ) :=
  ([1, 2, 3, 4] : List ℕ).flatMap fun rooms =>
  ([1, 2, 3] : List ℕ).flatMap fun baths =>
  ([0, 5, 9, 19, 20] : List ℕ).flatMap fun age =>
  ([0, 1, 2, 3, 4, 11] : List ℤ).flatMap fun floor =>
  ([0, 1] : List ℕ).flatMap fun furnished =>
  ([0, 1, 2] : List ℤ).flatMap fun payment =>
  ([0, 1] : List ℕ).map fun mortgaged =>
    (rooms, baths, age, floor, furnished, payment, mortgaged)

/-- One loop body of `judge_price`: `payload.model_copy(deep=True)` with
the seven grid fields overwritten by the tuple's values. -/
def setGrid (p : JudgeIn) (t : ℕ × ℕ × ℕ × ℤ × ℕ × ℤ × ℕ) : JudgeIn :=
  { p with rooms := t.1, baths := t.2.1, age := t.2.2.1, floor := t.2.2.2.1,
           furnished := t.2.2.2.2.1, payment := t.2.2.2.2.2.1,
           mortgaged := t.2.2.2.2.2.2 }

/-- The `variants` list built by the nested loops of `judge_price`: one
modified copy of the payload per grid tuple, in loop order. -/
def gridVariants (p : JudgeIn) : List JudgeIn := gridTuples.map (setGrid p)

/-- The batched predictions `final_model.predict(all_df)` over the grid:
the external regression model is a parameter `model` mapping an encoded
row to a price. -/
def marketPrices (model : List (String × ℚ) → ℚ) (fcols cats : List String)
    (p : JudgeIn) : List ℚ :=
  (gridVariants p).map fun v => model (build_model_input fcols cats v.toPredictIn)

/-- `np.min` of a nonempty list (0 for the empty list, which `numpy`
rejects; `judge_price` always passes 4320 prices). -/
def sMin : List ℚ → ℚ
  | [] => 0
  | x :: xs => xs.foldl min x

/-- `np.max` of a nonempty list (0 for the empty list). -/
def sMax : List ℚ → ℚ
  | [] => 0
  | x :: xs => xs.foldl max x

/-- `np.mean`. -/
def mean (l : List ℚ) : ℚ := l.sum / l.length

/-- Ascending insertion into a sorted list, for `np.percentile`'s sort. -/
def insertAsc (x : ℚ) : List ℚ → List ℚ
  | [] => [x]
  | y :: ys => if y ≤ x then y :: insertAsc x ys else x :: y :: ys

/-- Ascending insertion sort. -/
def sortAsc : List ℚ → List ℚ
  | [] => []
  | x :: xs => insertAsc x (sortAsc xs)

/-- `np.percentile(l, q)` with numpy's default linear interpolation
between order statistics; `np.median l = percentile l 50`. -/
def percentile (l : List ℚ) (q : ℚ) : ℚ :=
  let s := sortAsc l
  let pos : ℚ := q * (l.length - 1) / 100
  let i : ℕ := (⌊pos⌋).toNat
  let frac : ℚ := pos - ⌊pos⌋
  s.getD i 0 + frac * (s.getD (i + 1) 0 - s.getD i 0)

/-- The histogram range used by `np.histogram(prices, bins=10)`: the data's
min and max, expanded by 0.5 on each side when they coincide (numpy's
degenerate-range rule). -/
def histLoHi (l : List ℚ) : ℚ × ℚ :=
  if sMin l = sMax l then (sMin l - 1/2, sMax l + 1/2) else (sMin l, sMax l)

/-- The `i`-th of the 11 equally spaced bin edges over `[lo, hi]`. -/
def histEdge (lo hi : ℚ) (i : ℕ) : ℚ := lo + i * (hi - lo) / 10

/-- The 11 bin edges `np.histogram` returns. -/
def histEdges (lo hi : ℚ) : List ℚ := (List.range 11).map (histEdge lo hi)

/-- Membership of a value in bin `i` of `np.histogram`: bins are
half-open `[eᵢ, eᵢ₊₁)` except the last, which is closed `[e₉, e₁₀]`. -/
def inBin (lo hi : ℚ) (i : ℕ) (v : ℚ) : Bool :=
  decide (histEdge lo hi i ≤ v) &&
    (decide (v < histEdge lo hi (i + 1)) || (i == 9 && decide (v ≤ histEdge lo hi 10)))

/-- The 10 bin counts of `np.histogram(l, bins=10)` over range `[lo, hi]`. -/
def histCounts (l : List ℚ) (lo hi : ℚ) : List ℕ :=
  (List.range 10).map fun i => (l.filter (inBin lo hi i)).length

/-- The point prediction of the `/predict` endpoint before output rounding
(lines 150–153 of `app.py`): the model's estimate, multiplied by `1.011`
when the parking flag is truthy. -/
def predictYPred (model : List (String × ℚ) → ℚ) (fcols cats : List String)
    (p : PredictIn) : ℚ :=
  let y := model (build_model_input fcols cats p)
  if parkingTruthy p.parking then y * (1011/1000) else y

/-- The `predicted_price` computed inside `judge_price` (lines 228–232 of
`app.py`): an independent point prediction for the exact request
attributes, with the same `1.011` parking surcharge. -/
def judgePredictedPrice (model : List (String × ℚ) → ℚ) (fcols cats : List String)
    (p : JudgeIn) : ℚ :=
  let y := model (build_model_input fcols cats p.toPredictIn)
  if parkingTruthy p.parking then y * (1011/1000) else y

/-- The ordered `if/elif` judgment chain of `judge_price`
(lines 234–247 of `app.py`). -/
def judgmentKey (listed predicted pmin pmean pmax : ℚ) : String :=
  if listed < max (pmin * (9/10)) (pmean * (7/10)) then "SUSPICIOUSLY_UNDERPRICED"
  else if listed < pmean * (85/100) then "FAIR_LOW"
  else if predicted * (95/100) ≤ listed ∧ listed ≤ predicted * (105/100) then "PREDICTED_PRICE"
  else if listed < pmean * (95/100) then "GOOD_DEAL"
  else if listed < predicted then "PREDICTED_PRICE"
  else if listed ≤ pmax then "FAIR_PRICE"
  else "OVERPRICED"

/-- The six distinct label strings occurring in the judgment chain. -/
def judgmentLabels : List String :=
  ["SUSPICIOUSLY_UNDERPRICED", "FAIR_LOW", "PREDICTED_PRICE", "GOOD_DEAL",
   "FAIR_PRICE", "OVERPRICED"]

/-- Generic first-match evaluation of an ordered list of (condition, label)
rules with a default label. -/
def firstMatch : List (Bool × String) → String → String
  | [], d => d
  | (b, lab) :: rest, d => if b then lab else firstMatch rest d

/-- The spec's description of the judgment procedure (§4.4 / claim C1): an
ordered list of (predicate, label) rules, rules 1–6, with rule 7
(`OVERPRICED`) as the default of the first-match evaluation. -/
def judgeRulesSpec (listed predicted pmin pmean pmax : ℚ) : List (Bool × String) :=
  [(decide (listed < max (pmin * (9/10)) (pmean * (7/10))), "SUSPICIOUSLY_UNDERPRICED"),
   (decide (listed < pmean * (85/100)), "FAIR_LOW"),
   (decide (predicted * (95/100) ≤ listed ∧ listed ≤ predicted * (105/100)), "PREDICTED_PRICE"),
   (decide (listed < pmean * (95/100)), "GOOD_DEAL"),
   (decide (listed < predicted), "PREDICTED_PRICE"),
   (decide (listed ≤ pmax), "FAIR_PRICE")]

/-- The full `/judge_price` response (`app.py` lines 255–268), with the
numeric fields in source order; `hist_counts`/`hist_edges` are the `hist`
object's two arrays. -/
structure JudgeOut where
  judgment_key : String
  listed_price : ℚ
  predicted_price : ℚ
  market_mean : ℚ
  market_median : ℚ
  price_q1 : ℚ
  price_q3 : ℚ
  price_range : List ℚ
  hist_counts : List ℕ
  hist_edges : List ℚ
deriving Repr

/-- The `/judge_price` endpoint: grid simulation, statistics, histogram,
point prediction with parking surcharge, judgment chain, and response
assembly with `r(x) = round(x, 2)` applied exactly where the source
applies it (the histogram arrays are returned via `.tolist()` unrounded). -/
def judge_price (model : List (String × ℚ) → ℚ) (fcols cats : List String)
    (p : JudgeIn) : JudgeOut :=
  let predicted_prices := marketPrices model fcols cats p
  let price_min := sMin predicted_prices
  let price_max := sMax predicted_prices
  let price_mean := mean predicted_prices
  let price_median := percentile predicted_prices 50
  let price_q1 := percentile predicted_prices 25
  let price_q3 := percentile predicted_prices 75
  let lohi := histLoHi predicted_prices
  let listed := p.listed_price
  let predicted_price := judgePredictedPrice model fcols cats p
  { judgment_key := judgmentKey listed predicted_price price_min price_mean price_max,
    listed_price := round2 listed,
    predicted_price := round2 predicted_price,
    market_mean := round2 price_mean,
    market_median := round2 price_median,
    price_q1 := round2 price_q1,
    price_q3 := round2 price_q3,
    price_range := [round2 price_min, round2 price_max],
    hist_counts := histCounts predicted_prices lohi.1 lohi.2,
    hist_edges := histEdges lohi.1 lohi.2 }

/-- The city-indicator feature columns: `feature_columns` entries starting
with `CITY_PREFIX` (the city group of `FEATURE_GROUPS`). -/
def cityFeatures (fcols : List String) : List String :=
  fcols.filter fun col => listPfx cityPfx.data col.data

/-- `FEATURE_GROUPS` from `app.py`: static group names with their
constituent feature-column names, in definition order. -/
def FEATURE_GROUPS (fcols : List String) : List (String × List String) :=
  [("المساحة و الغرف", ["مساحة البناء", "عدد الغرف"]),
   ("الحمامات", ["عدد الحمامات"]),
   ("حالة العقار", ["مفروشة", "عمر البناء", "العقار مرهون"]),
   ("الدفع", ["طريقة الدفع"]),
   ("الطابق", ["الطابق"]),
   ("المدينة", cityFeatures fcols)]

/-- `sum(feature_shap.get(f, 0) for f in features)`: `featShap` models the
`feature_shap` dict as a total function (absent keys contribute 0). -/
def groupSum (featShap : String → ℚ) (feats : List String) : ℚ :=
  (feats.map featShap).sum

/-- `active_cities`: the city feature columns whose value in the encoded
input row equals 1. -/
def activeCities (fcols : List String) (df : List (String × ℚ)) : List String :=
  (cityFeatures fcols).filter fun f => (df.lookup f).getD 0 = 1

/-- The `grouped` dict of `group_shap_values`, as an ordered association
list: per group, the sum of its features' attributions — restricted to the
active city indicators for the city group. -/
def groupedVals (fcols : List String) (featShap : String → ℚ)
    (df : List (String × ℚ)) : List (String × ℚ) :=
  (FEATURE_GROUPS fcols).map fun g =>
    if g.1 = "المدينة" then (g.1, groupSum featShap (activeCities fcols df))
    else (g.1, groupSum featShap g.2)

/-- `total_abs = sum(abs(v) for v in grouped.values()) or 1e-9`:
Python's `or` replaces a zero (falsy) sum by the epsilon `1e-9`. -/
def totalAbs (grouped : List (String × ℚ)) : ℚ :=
  if (grouped.map fun g => |g.2|).sum = 0 then 1/1000000000
  else (grouped.map fun g => |g.2|).sum

/-- The `ranked` dict before sorting: every group's signed sum divided by
`total_abs`, times 100, rounded to 2 decimals; order is still the
definition order. -/
def rankedVals (fcols : List String) (featShap : String → ℚ)
    (df : List (String × ℚ)) : List (String × ℚ) :=
  (groupedVals fcols featShap df).map fun g =>
    (g.1, round2 (g.2 / totalAbs (groupedVals fcols featShap df) * 100))

/-- Stable insertion into a list sorted by descending absolute value: the
new element goes before the first entry of equal-or-smaller magnitude,
matching Python's stable `sorted(..., key=abs, reverse=True)`. -/
def insertDesc (x : String × ℚ) : List (String × ℚ) → List (String × ℚ)
  | [] => [x]
  | y :: ys => if |y.2| > |x.2| then y :: insertDesc x ys else x :: y :: ys

/-- Stable insertion sort by descending absolute value. -/
def sortDesc : List (String × ℚ) → List (String × ℚ)
  | [] => []
  | x :: xs => insertDesc x (sortDesc xs)

/-- `group_shap_values` from `app.py`: group, normalize, round, sort by
descending absolute value (stable), and keep only the top 4 entries. -/
def group_shap_values (fcols : List String) (featShap : String → ℚ)
    (df : List (String × ℚ)) : List (String × ℚ) :=
  (sortDesc (rankedVals fcols featShap df)).take 4

/-- Position of a group name in the static `FEATURE_GROUPS` definition
order (used to state tie-breaking). -/
def groupIdx (g : String) : ℕ :=
  ["المساحة و الغرف", "الحمامات", "حالة العقار", "الدفع", "الطابق", "المدينة"].indexOf g

/-- A rational is a 2-decimal value: an integer number of hundredths. -/
def isRounded2 (q : ℚ) : Prop := ∃ z : ℤ, q = (z : ℚ) / 100

/-- A fixed example payload used to instantiate theorems at concrete
inputs (rooms 3, baths 2, furnished, 120 m², 2nd floor, age 7, cash,
parking, city عمان, asking price 50000). -/
def exPayload : JudgeIn :=
  { rooms := 3, baths := 2, furnished := 1, area := 120, floor := 2, age := 7,
    mortgaged := 0, payment := 0, parking := some 1, city := "عمان",
    listed_price := 50000 }

/-- A fixed example model used to instantiate theorems: a constant price. -/
def exModel : List (String × ℚ) → ℚ := fun _ => 1000

/- ------------------------------------------------------------------ -/
/- Theorems                                                            -/
/- ------------------------------------------------------------------ -/

/-- C5: `map_building_age` realizes the bucket boundaries {0} → 0, {1} → 1,
{2–5} → 2, {6–9} → 3, {10–19} → 4, {20+} → 5, and is monotone in the age. -/
theorem map_building_age_buckets_monotone (a a1 a2 : ℕ) (h : a1 < a2) :
    (a = 0 → map_building_age a = 0) ∧
    (a = 1 → map_building_age a = 1) ∧
    (2 ≤ a ∧ a ≤ 5 → map_building_age a = 2) ∧
    (6 ≤ a ∧ a ≤ 9 → map_building_age a = 3) ∧
    (10 ≤ a ∧ a ≤ 19 → map_building_age a = 4) ∧
    (20 ≤ a → map_building_age a = 5) ∧
    map_building_age a1 ≤ map_building_age a2 := by
  refine ⟨?_, ?_, ?_, ?_, ?_, ?_, ?_⟩ <;>
    [skip; skip; skip; skip; skip; skip;
     (unfold map_building_age; split_ifs <;> omega)] <;>
  · intro h'
    unfold map_building_age
    split_ifs <;> omega

/-- Witness for C5 at age 7 and the pair 3 < 12. -/
theorem map_building_age_buckets_monotone_witness :
    (7 = 0 → map_building_age 7 = 0) ∧
    (7 = 1 → map_building_age 7 = 1) ∧
    (2 ≤ 7 ∧ 7 ≤ 5 → map_building_age 7 = 2) ∧
    (6 ≤ 7 ∧ 7 ≤ 9 → map_building_age 7 = 3) ∧
    (10 ≤ 7 ∧ 7 ≤ 19 → map_building_age 7 = 4) ∧
    (20 ≤ 7 → map_building_age 7 = 5) ∧
    map_building_age 3 ≤ map_building_age 12 :=
  map_building_age_buckets_monotone 7 3 12 (by decide)

/-- C8: in both `/predict` and `/judge_price`, the computed predicted price
is the model's point estimate for the exact request attributes times
`1.011` exactly when the parking flag is truthy, and the unmodified
estimate when the flag is 0 or absent. -/
theorem predicted_price_parking_surcharge (model : List (String × ℚ) → ℚ)
    (fcols cats : List String) (p : JudgeIn) :
    (parkingTruthy p.parking = true →
      predictYPred model fcols cats p.toPredictIn =
        model (build_model_input fcols cats p.toPredictIn) * (1011/1000) ∧
      judgePredictedPrice model fcols cats p =
        model (build_model_input fcols cats p.toPredictIn) * (1011/1000)) ∧
    (parkingTruthy p.parking = false →
      predictYPred model fcols cats p.toPredictIn =
        model (build_model_input fcols cats p.toPredictIn) ∧
      judgePredictedPrice model fcols cats p =
        model (build_model_input fcols cats p.toPredictIn)) := by
  unfold predictYPred judgePredictedPrice
  constructor <;> intro h <;> simp [h]

/-- Witness for C8: the example payload has `parking = some 1`, so the
surcharge applies on both endpoints. -/
theorem predicted_price_parking_surcharge_witness :
    predictYPred exModel [] [] exPayload.toPredictIn =
      exModel (build_model_input [] [] exPayload.toPredictIn) * (1011/1000) ∧
    judgePredictedPrice exModel [] [] exPayload =
      exModel (build_model_input [] [] exPayload.toPredictIn) * (1011/1000) :=
  (predicted_price_parking_surcharge exModel [] [] exPayload).1 (by decide)

/-- C1: for a positive listed price and a market summary with
min ≤ mean ≤ max, the judgment label equals the first matching rule of the
spec's ordered chain (rules 1–6 with `OVERPRICED` as default), and it is
always one of the chain's labels. -/
theorem judgmentKey_follows_ordered_chain (l pr mn me mx : ℚ)
    (hl : 0 < l) (h1 : mn ≤ me) (h2 : me ≤ mx) :
    judgmentKey l pr mn me mx = firstMatch (judgeRulesSpec l pr mn me mx) "OVERPRICED" ∧
    judgmentKey l pr mn me mx ∈ judgmentLabels := by
  constructor
  · simp only [judgmentKey, firstMatch, judgeRulesSpec, decide_eq_true_eq,
      Bool.and_eq_true]
  · unfold judgmentKey judgmentLabels
    split_ifs <;> simp

/-- Witness for C1: a listing far below 70% of the market mean is judged
`SUSPICIOUSLY_UNDERPRICED`, which first-matches rule 1. -/
theorem judgmentKey_follows_ordered_chain_witness :
    judgmentKey 50000 180000 150000 200000 260000 =
      firstMatch (judgeRulesSpec 50000 180000 150000 200000 260000) "OVERPRICED" ∧
    judgmentKey 50000 180000 150000 200000 260000 ∈ judgmentLabels :=
  judgmentKey_follows_ordered_chain 50000 180000 150000 200000 260000
    (by norm_num) (by norm_num) (by norm_num)

/-- Any tuple drawn from the seven per-dimension value lists is enumerated
by the nested loops. -/
lemma mem_gridTuples_of (r b a : ℕ) (f : ℤ) (fu : ℕ) (pay : ℤ) (m : ℕ)
    (hr : r ∈ ([1, 2, 3, 4] : List ℕ)) (hb : b ∈ ([1, 2, 3] : List ℕ))
    (ha : a ∈ ([0, 5, 9, 19, 20] : List ℕ)) (hf : f ∈ ([0, 1, 2, 3, 4, 11] : List ℤ))
    (hfu : fu ∈ ([0, 1] : List ℕ)) (hpay : pay ∈ ([0, 1, 2] : List ℤ))
    (hm : m ∈ ([0, 1] : List ℕ)) :
    (r, b, a, f, fu, pay, m) ∈ gridTuples := by
  simp only [gridTuples, List.mem_flatMap, List.mem_map]
  exact ⟨r, hr, b, hb, a, ha, f, hf, fu, hfu, pay, hpay, m, hm, rfl⟩

/-- Length of a concatenated map: the sum of the inner lengths. -/
lemma length_flatMap_sum {α β : Type} (l : List α) (f : α → List β) :
    (l.flatMap f).length = ((l.map fun a => (f a).length)).sum := by
  induction l with
  | nil => rfl
  | cons x xs ih => simp [List.flatMap_cons, ih]

/-- The loop nest enumerates 4·3·5·6·2·3·2 = 4320 tuples. -/
lemma gridTuples_length : gridTuples.length = 4320 := by
  simp only [gridTuples, length_flatMap_sum, List.length_map, List.map_cons,
    List.map_nil, List.sum_cons, List.sum_nil, List.length_cons, List.length_nil]
  norm_num

/-- C2: the simulation builds exactly 4320 variants; every variant keeps
the request's city, building area and parking flag; and every combination
from the seven-dimensional grid rooms × baths × age × floor × furnished ×
payment × mortgaged occurs among the variants. -/
theorem gridVariants_full_cartesian_grid (p : JudgeIn) (r b a : ℕ) (f : ℤ)
    (fu : ℕ) (pay : ℤ) (m : ℕ)
    (hr : r ∈ ([1, 2, 3, 4] : List ℕ)) (hb : b ∈ ([1, 2, 3] : List ℕ))
    (ha : a ∈ ([0, 5, 9, 19, 20] : List ℕ)) (hf : f ∈ ([0, 1, 2, 3, 4, 11] : List ℤ))
    (hfu : fu ∈ ([0, 1] : List ℕ)) (hpay : pay ∈ ([0, 1, 2] : List ℤ))
    (hm : m ∈ ([0, 1] : List ℕ)) :
    (gridVariants p).length = 4320 ∧
    (∀ v ∈ gridVariants p, v.city = p.city ∧ v.area = p.area ∧
      v.parking = p.parking) ∧
    (∃ v ∈ gridVariants p, v.rooms = r ∧ v.baths = b ∧ v.age = a ∧
      v.floor = f ∧ v.furnished = fu ∧ v.payment = pay ∧ v.mortgaged = m) := by
  refine ⟨?_, ?_, ?_⟩
  · rw [gridVariants, List.length_map]
    exact gridTuples_length
  · intro v hv
    obtain ⟨t, _, rfl⟩ := List.mem_map.mp hv
    simp [setGrid]
  · refine ⟨setGrid p (r, b, a, f, fu, pay, m),
      List.mem_map_of_mem _ (mem_gridTuples_of r b a f fu pay m hr hb ha hf hfu hpay hm), ?_⟩
    simp [setGrid]

/-- Witness for C2 at a concrete payload and the grid point
(2, 3, 9, 11, 1, 2, 0). -/
theorem gridVariants_full_cartesian_grid_witness :
    (gridVariants exPayload).length = 4320 ∧
    (∀ v ∈ gridVariants exPayload, v.city = exPayload.city ∧
      v.area = exPayload.area ∧ v.parking = exPayload.parking) ∧
    (∃ v ∈ gridVariants exPayload, v.rooms = 2 ∧ v.baths = 3 ∧ v.age = 9 ∧
      v.floor = 11 ∧ v.furnished = 1 ∧ v.payment = 2 ∧ v.mortgaged = 0) :=
  gridVariants_full_cartesian_grid exPayload 2 3 9 11 1 2 0
    (by decide) (by decide) (by decide) (by decide) (by decide) (by decide)
    (by decide)

/-- The encoder never reads the parking flag. -/
lemma build_model_input_parking (fcols cats : List String) (p : PredictIn)
    (a : Option ℕ) :
    build_model_input fcols cats { p with parking := a } =
      build_model_input fcols cats p := rfl

/-- The market simulation never reads the parking flag. -/
lemma marketPrices_parking (model : List (String × ℚ) → ℚ)
    (fcols cats : List String) (jp : JudgeIn) (a : Option ℕ) :
    marketPrices model fcols cats { jp with parking := a } =
      marketPrices model fcols cats jp := by
  unfold marketPrices gridVariants
  rw [List.map_map, List.map_map]
  apply List.map_congr_left
  intro t _
  rfl

/-- C10: the encoded feature vector, and hence the whole list of 4320
simulated market prices, is unchanged when only the optional parking flag
of the payload differs; parking can influence outputs only through the
post-prediction surcharge. -/
theorem parking_noninterference (model : List (String × ℚ) → ℚ)
    (fcols cats : List String) (p : PredictIn) (jp : JudgeIn)
    (a b : Option ℕ) :
    build_model_input fcols cats { p with parking := a } =
      build_model_input fcols cats { p with parking := b } ∧
    marketPrices model fcols cats { jp with parking := a } =
      marketPrices model fcols cats { jp with parking := b } :=
  ⟨(build_model_input_parking fcols cats p a).trans
      (build_model_input_parking fcols cats p b).symm,
   (marketPrices_parking model fcols cats jp a).trans
      (marketPrices_parking model fcols cats jp b).symm⟩

/-- Characterization of membership in the encoded row: a (column, value)
pair occurs iff the column is a schema column and the value is the merged
row's value there (0 when unpopulated). -/
lemma mem_build_model_input (fcols cats : List String) (p : PredictIn)
    (col : String) (v : ℚ) :
    (col, v) ∈ build_model_input fcols cats p ↔
      col ∈ fcols ∧ v = (mergedVal cats p col).getD 0 := by
  constructor
  · intro h
    obtain ⟨c, hc, heq⟩ := List.mem_map.mp h
    simp only [Prod.mk.injEq] at heq
    obtain ⟨h1, h2⟩ := heq
    subst h1
    exact ⟨hc, h2.symm⟩
  · rintro ⟨hc, rfl⟩
    exact List.mem_map.mpr ⟨col, hc, rfl⟩

/-- C4: the encoded row's column names equal `feature_columns` in order;
a schema column the encoding does not populate gets value 0; and every
pair in the output has its column in the schema (columns the row produces
outside the schema are dropped by the reindex). -/
theorem build_model_input_schema_aligned (fcols cats : List String)
    (p : PredictIn) :
    ((build_model_input fcols cats p).map Prod.fst = fcols) ∧
    (∀ col ∈ fcols, mergedVal cats p col = none →
      ((col, (0 : ℚ)) ∈ build_model_input fcols cats p ∧
       ∀ v, (col, v) ∈ build_model_input fcols cats p → v = 0)) ∧
    (∀ col (v : ℚ), (col, v) ∈ build_model_input fcols cats p → col ∈ fcols) := by
  refine ⟨?_, ?_, ?_⟩
  · simp [build_model_input, List.map_map, Function.comp_def]
  · intro col hcol hnone
    constructor
    · exact (mem_build_model_input fcols cats p col 0).mpr ⟨hcol, by simp [hnone]⟩
    · intro v hv
      have h := ((mem_build_model_input fcols cats p col v).mp hv).2
      simpa [hnone] using h
  · intro col v hv
    exact ((mem_build_model_input fcols cats p col v).mp hv).1

/-- Witness for C4 at a concrete schema, category set and payload. -/
theorem build_model_input_schema_aligned_witness :
    ((build_model_input ["عدد الغرف", "المدينة_عمان"] ["عمان"] exPayload.toPredictIn).map
        Prod.fst = ["عدد الغرف", "المدينة_عمان"]) ∧
    (∀ col ∈ (["عدد الغرف", "المدينة_عمان"] : List String),
      mergedVal ["عمان"] exPayload.toPredictIn col = none →
      ((col, (0 : ℚ)) ∈ build_model_input ["عدد الغرف", "المدينة_عمان"] ["عمان"]
          exPayload.toPredictIn ∧
       ∀ v, (col, v) ∈ build_model_input ["عدد الغرف", "المدينة_عمان"] ["عمان"]
          exPayload.toPredictIn → v = 0)) ∧
    (∀ col (v : ℚ), (col, v) ∈ build_model_input ["عدد الغرف", "المدينة_عمان"]
        ["عمان"] exPayload.toPredictIn →
      col ∈ (["عدد الغرف", "المدينة_عمان"] : List String)) :=
  build_model_input_schema_aligned ["عدد الغرف", "المدينة_عمان"] ["عمان"]
    exPayload.toPredictIn

/-- A character list is an initial segment of itself followed by anything. -/
lemma listPfx_self_append (xs ys : List Char) : listPfx xs (xs ++ ys) = true := by
  induction xs with
  | nil => rfl
  | cons a as ih => simp [listPfx, ih]

/-- A city indicator column name starts with `CITY_PREFIX`. -/
lemma listPfx_cityPfx_append (c : String) :
    listPfx cityPfx.data (cityPfx ++ c).data = true := by
  rw [String.data_append]
  exact listPfx_self_append cityPfx.data c.data

/-- None of the eight training keys is a city indicator column: `base` has
no value at any column starting with `CITY_PREFIX`. -/
lemma baseVal_city_none (p : PredictIn) (col : String)
    (h : listPfx cityPfx.data col.data = true) : baseVal p col = none := by
  unfold baseVal
  split_ifs with h1 h2 h3 h4 h5 h6 h7 h8
  all_goals first
    | rfl
    | (subst_vars; exact absurd h (by decide))

/-- Counterexample to C3 as stated: with `city_categories = [عمان]` and a
feature schema that does define the reserved column `المدينة_أخرى`, a
payload whose city إربد is unknown gets value 0 — not 1 — at the "other"
indicator, because the code's fallback tests membership of أخرى in
`city_categories`, not in the schema. -/
theorem build_model_input_other_fallback_cex :
    ("إربد" ∈ (["عمان"] : List String)) = False ∧
    "المدينة_أخرى" ∈ (["المدينة_أخرى"] : List String) ∧
    build_model_input ["المدينة_أخرى"] ["عمان"]
      { rooms := 1, baths := 1, furnished := 0, area := 100, floor := 0,
        age := 0, mortgaged := 0, payment := 0, parking := some 0,
        city := "إربد" } = [("المدينة_أخرى", 0)] := by
  refine ⟨by simp, by simp, ?_⟩
  decide

/-- C3 (amended): at most one city indicator of the encoded vector is
nonzero and it equals 1: it is the payload's city's column when the city
is in `city_categories`, else the أخرى column when أخرى is in
`city_categories` (not: when the schema defines it); each selected
indicator actually appears with value 1 whenever its column is in the
schema; with an unknown city and no أخرى category, every city indicator
is 0 and no error is raised. -/
theorem build_model_input_city_onehot (fcols cats : List String)
    (p : PredictIn) :
    (∀ e ∈ build_model_input fcols cats p,
      listPfx cityPfx.data e.1.data = true → e.2 ≠ 0 →
      e.2 = 1 ∧
      ((p.city ∈ cats ∧ e.1 = cityPfx ++ p.city) ∨
       (p.city ∉ cats ∧ "أخرى" ∈ cats ∧ e.1 = cityPfx ++ "أخرى"))) ∧
    (p.city ∈ cats → cityPfx ++ p.city ∈ fcols →
      (cityPfx ++ p.city, (1 : ℚ)) ∈ build_model_input fcols cats p) ∧
    (p.city ∉ cats → "أخرى" ∈ cats → cityPfx ++ "أخرى" ∈ fcols →
      (cityPfx ++ "أخرى", (1 : ℚ)) ∈ build_model_input fcols cats p) ∧
    (p.city ∉ cats → "أخرى" ∉ cats →
      ∀ e ∈ build_model_input fcols cats p,
        listPfx cityPfx.data e.1.data = true → e.2 = 0) := by
  refine ⟨?_, ?_, ?_, ?_⟩
  · rintro ⟨col, v⟩ hv hp hne
    obtain ⟨-, hval⟩ := (mem_build_model_input fcols cats p col v).mp hv
    subst hval
    unfold mergedVal at *
    split_ifs at * with hex
    · unfold cityColVal at *
      split_ifs at * with hcity hoth hc1 hc2
      · simp_all
      · simp_all
      · simp_all
      · simp_all
      · simp_all
    · rw [baseVal_city_none p col hp] at hne ⊢
      simp_all
  · intro hcity hcol
    refine (mem_build_model_input fcols cats p _ _).mpr ⟨hcol, ?_⟩
    have hex : ∃ c ∈ cats, cityPfx ++ p.city = cityPfx ++ c :=
      ⟨p.city, hcity, rfl⟩
    rw [mergedVal, if_pos hex, cityColVal, if_pos hcity, if_pos rfl]
    rfl
  · intro hcity hoth hcol
    refine (mem_build_model_input fcols cats p _ _).mpr ⟨hcol, ?_⟩
    have hex : ∃ c ∈ cats, cityPfx ++ "أخرى" = cityPfx ++ c :=
      ⟨"أخرى", hoth, rfl⟩
    rw [mergedVal, if_pos hex, cityColVal, if_neg hcity, if_pos hoth, if_pos rfl]
    rfl
  · intro hcity hoth e he hp
    obtain ⟨-, hval⟩ := (mem_build_model_input fcols cats p e.1 e.2).mp
      (by exact Prod.mk.eta ▸ he)
    rw [hval, mergedVal]
    split_ifs with hex
    · rw [cityColVal, if_neg hcity, if_neg hoth]
      rfl
    · rw [baseVal_city_none p e.1 hp]
      rfl

/-- Witness for C3 (amended) at a schema containing the known city عمان. -/
theorem build_model_input_city_onehot_witness :
    (∀ e ∈ build_model_input ["المدينة_عمان"] ["عمان"] exPayload.toPredictIn,
      listPfx cityPfx.data e.1.data = true → e.2 ≠ 0 →
      e.2 = 1 ∧
      ((exPayload.city ∈ (["عمان"] : List String) ∧
          e.1 = cityPfx ++ exPayload.city) ∨
       (exPayload.city ∉ (["عمان"] : List String) ∧
          "أخرى" ∈ (["عمان"] : List String) ∧ e.1 = cityPfx ++ "أخرى"))) ∧
    (exPayload.city ∈ (["عمان"] : List String) →
      cityPfx ++ exPayload.city ∈ (["المدينة_عمان"] : List String) →
      (cityPfx ++ exPayload.city, (1 : ℚ)) ∈
        build_model_input ["المدينة_عمان"] ["عمان"] exPayload.toPredictIn) ∧
    (exPayload.city ∉ (["عمان"] : List String) →
      "أخرى" ∈ (["عمان"] : List String) →
      cityPfx ++ "أخرى" ∈ (["المدينة_عمان"] : List String) →
      (cityPfx ++ "أخرى", (1 : ℚ)) ∈
        build_model_input ["المدينة_عمان"] ["عمان"] exPayload.toPredictIn) ∧
    (exPayload.city ∉ (["عمان"] : List String) →
      "أخرى" ∉ (["عمان"] : List String) →
      ∀ e ∈ build_model_input ["المدينة_عمان"] ["عمان"] exPayload.toPredictIn,
        listPfx cityPfx.data e.1.data = true → e.2 = 0) :=
  build_model_input_city_onehot ["المدينة_عمان"] ["عمان"] exPayload.toPredictIn

/-- Rounding to 2 decimals yields a 2-decimal value. -/
lemma isRounded2_round2 (q : ℚ) : isRounded2 (round2 q) :=
  ⟨round (q * 100), rfl⟩

/-- Folding `min` over copies of the accumulator leaves it unchanged. -/
lemma foldl_min_self (c : ℚ) : ∀ n, List.foldl min c (List.replicate n c) = c := by
  intro n
  induction n with
  | zero => rfl
  | succ k ih => rw [List.replicate_succ, List.foldl_cons, min_self]; exact ih

/-- Folding `max` over copies of the accumulator leaves it unchanged. -/
lemma foldl_max_self (c : ℚ) : ∀ n, List.foldl max c (List.replicate n c) = c := by
  intro n
  induction n with
  | zero => rfl
  | succ k ih => rw [List.replicate_succ, List.foldl_cons, max_self]; exact ih

/-- Minimum of a constant nonempty list. -/
lemma sMin_replicate (n : ℕ) (c : ℚ) : sMin (List.replicate (n + 1) c) = c := by
  rw [List.replicate_succ]
  exact foldl_min_self c n

/-- Maximum of a constant nonempty list. -/
lemma sMax_replicate (n : ℕ) (c : ℚ) : sMax (List.replicate (n + 1) c) = c := by
  rw [List.replicate_succ]
  exact foldl_max_self c n

/-- A constant model prices all 4320 simulated variants identically. -/
lemma marketPrices_const (c : ℚ) (fcols cats : List String) (p : JudgeIn) :
    marketPrices (fun _ => c) fcols cats p = List.replicate 4320 c := by
  unfold marketPrices gridVariants
  rw [List.map_map]
  show List.map (fun _ => c) gridTuples = _
  rw [List.map_const', gridTuples_length]

/-- Counterexample to C7 as stated: for a model that prices every row at
0.001, the degenerate histogram range is expanded to [-0.499, 0.501], and
the first returned histogram edge -0.499 is not a 2-decimal value — the
source returns `hist_edges` via `.tolist()` without applying `r`. -/
theorem judge_hist_edges_unrounded_cex :
    ¬ isRounded2 ((judge_price (fun _ => 1/1000) [] [] exPayload).hist_edges.getD 0 0) := by
  have h2 : (judge_price (fun _ => (1/1000 : ℚ)) [] [] exPayload).hist_edges =
      histEdges (histLoHi (marketPrices (fun _ => (1/1000 : ℚ)) [] [] exPayload)).1
        (histLoHi (marketPrices (fun _ => (1/1000 : ℚ)) [] [] exPayload)).2 := rfl
  have h1 : marketPrices (fun _ => (1/1000 : ℚ)) [] [] exPayload =
      List.replicate 4320 (1/1000 : ℚ) := marketPrices_const _ _ _ _
  have e4320 : (4320 : ℕ) = 4319 + 1 := by norm_num
  have hmin : sMin (List.replicate 4320 (1/1000 : ℚ)) = 1/1000 := by
    rw [e4320]
    exact sMin_replicate 4319 (1/1000 : ℚ)
  have hmax : sMax (List.replicate 4320 (1/1000 : ℚ)) = 1/1000 := by
    rw [e4320]
    exact sMax_replicate 4319 (1/1000 : ℚ)
  have hlohi : histLoHi (List.replicate 4320 (1/1000 : ℚ)) =
      (1/1000 - 1/2, 1/1000 + 1/2) := by
    rw [histLoHi, hmin, hmax, if_pos rfl]
  rw [h2, h1, hlohi]
  have hedge : (histEdges (1/1000 - 1/2, 1/1000 + 1/2).1
      (1/1000 - 1/2, (1/1000 : ℚ) + 1/2).2).getD 0 0 =
      histEdge (1/1000 - 1/2) ((1/1000 : ℚ) + 1/2) 0 := rfl
  rw [hedge]
  rintro ⟨z, hz⟩
  rw [histEdge] at hz
  norm_num at hz
  have h10 : (10 : ℚ) * z = -499 := by linarith
  have h10c : (10 : ℤ) * z = -499 := by exact_mod_cast h10
  omega

/-- C7 (amended): `listed_price`, `predicted_price`, `market_mean`,
`market_median`, `price_q1`, `price_q3` and both ends of `price_range`
are each rounded to 2 decimal places; the 11 histogram edges are the raw
`np.histogram` bin edges, returned without rounding. -/
theorem judge_response_rounding (model : List (String × ℚ) → ℚ)
    (fcols cats : List String) (p : JudgeIn) :
    isRounded2 ((judge_price model fcols cats p).listed_price) ∧
    isRounded2 ((judge_price model fcols cats p).predicted_price) ∧
    isRounded2 ((judge_price model fcols cats p).market_mean) ∧
    isRounded2 ((judge_price model fcols cats p).market_median) ∧
    isRounded2 ((judge_price model fcols cats p).price_q1) ∧
    isRounded2 ((judge_price model fcols cats p).price_q3) ∧
    (∀ x ∈ (judge_price model fcols cats p).price_range, isRounded2 x) ∧
    (judge_price model fcols cats p).hist_edges =
      histEdges (histLoHi (marketPrices model fcols cats p)).1
        (histLoHi (marketPrices model fcols cats p)).2 := by
  refine ⟨isRounded2_round2 _, isRounded2_round2 _, isRounded2_round2 _,
    isRounded2_round2 _, isRounded2_round2 _, isRounded2_round2 _, ?_, rfl⟩
  intro x hx
  simp only [judge_price, List.mem_cons, List.not_mem_nil, or_false] at hx
  rcases hx with rfl | rfl
  · exact isRounded2_round2 _
  · exact isRounded2_round2 _

/-- Folding `min` never exceeds the accumulator. -/
lemma foldl_min_le_acc (ys : List ℚ) : ∀ acc, List.foldl min acc ys ≤ acc := by
  induction ys with
  | nil => intro acc; exact le_refl _
  | cons y ys ih =>
    intro acc
    exact le_trans (ih (min acc y)) (min_le_left _ _)

/-- Folding `min` never exceeds any list element. -/
lemma foldl_min_le_mem (ys : List ℚ) : ∀ acc, ∀ x ∈ ys, List.foldl min acc ys ≤ x := by
  induction ys with
  | nil => intro acc x hx; cases hx
  | cons y ys ih =>
    intro acc x hx
    rcases List.mem_cons.mp hx with rfl | hx'
    · exact le_trans (foldl_min_le_acc ys (min acc x)) (min_le_right _ _)
    · exact ih (min acc y) x hx'

/-- Folding `max` dominates the accumulator. -/
lemma acc_le_foldl_max (ys : List ℚ) : ∀ acc, acc ≤ List.foldl max acc ys := by
  induction ys with
  | nil => intro acc; exact le_refl _
  | cons y ys ih =>
    intro acc
    exact le_trans (le_max_left _ _) (ih (max acc y))

/-- Folding `max` dominates every list element. -/
lemma mem_le_foldl_max (ys : List ℚ) : ∀ acc, ∀ x ∈ ys, x ≤ List.foldl max acc ys := by
  induction ys with
  | nil => intro acc x hx; cases hx
  | cons y ys ih =>
    intro acc x hx
    rcases List.mem_cons.mp hx with rfl | hx'
    · exact le_trans (le_max_right _ _) (acc_le_foldl_max ys (max acc x))
    · exact ih (max acc y) x hx'

/-- `np.min` bounds every element from below. -/
lemma sMin_le (l : List ℚ) (x : ℚ) (hx : x ∈ l) : sMin l ≤ x := by
  cases l with
  | nil => cases hx
  | cons y ys =>
    rcases List.mem_cons.mp hx with rfl | hx'
    · exact foldl_min_le_acc ys x
    · exact foldl_min_le_mem ys y x hx'

/-- `np.max` bounds every element from above. -/
lemma le_sMax (l : List ℚ) (x : ℚ) (hx : x ∈ l) : x ≤ sMax l := by
  cases l with
  | nil => cases hx
  | cons y ys =>
    rcases List.mem_cons.mp hx with rfl | hx'
    · exact acc_le_foldl_max ys x
    · exact mem_le_foldl_max ys y x hx'

/-- On a nonempty list the histogram range is nondegenerate and contains
every data point. -/
lemma histLoHi_spec (l : List ℚ) (hne : l ≠ []) :
    (histLoHi l).1 < (histLoHi l).2 ∧
    ∀ v ∈ l, (histLoHi l).1 ≤ v ∧ v ≤ (histLoHi l).2 := by
  have hminmax : sMin l ≤ sMax l := by
    cases l with
    | nil => exact absurd rfl hne
    | cons y ys =>
      exact le_trans (sMin_le _ y (List.mem_cons_self y ys))
        (le_sMax _ y (List.mem_cons_self y ys))
  rw [histLoHi]
  split_ifs with heq
  · refine ⟨by simp; linarith, fun v hv => ?_⟩
    have h1 := sMin_le l v hv
    have h2 := le_sMax l v hv
    constructor <;> simp <;> linarith
  · exact ⟨lt_of_le_of_ne hminmax heq, fun v hv =>
      ⟨sMin_le l v hv, le_sMax l v hv⟩⟩

/-- The bin a value falls into: the floor of its scaled offset, clamped to
the last bin (proof device for the histogram partition argument). -/
def binIdx (lo hi v : ℚ) : ℕ := min (⌊(v - lo) * 10 / (hi - lo)⌋.toNat) 9

/-- For data inside a nondegenerate range, membership in bin `i < 10` is
equivalent to `binIdx` selecting `i`: the 10 numpy bins partition the
range. -/
lemma inBin_iff_binIdx (lo hi v : ℚ) (hlh : lo < hi) (h1 : lo ≤ v)
    (h2 : v ≤ hi) (i : ℕ) (hi10 : i < 10) :
    (inBin lo hi i v = true) ↔ binIdx lo hi v = i := by
  have hd : (0 : ℚ) < hi - lo := by linarith
  set t : ℚ := (v - lo) * 10 / (hi - lo) with htdef
  have hF1 : ∀ j : ℕ, (histEdge lo hi j ≤ v ↔ (j : ℚ) ≤ t) := by
    intro j
    rw [htdef, histEdge, le_div_iff hd]
    constructor <;> intro h <;> linarith
  have hF2 : ∀ j : ℕ, (v < histEdge lo hi j ↔ t < (j : ℚ)) := by
    intro j
    rw [htdef, histEdge, div_lt_iff hd]
    constructor <;> intro h <;> linarith
  have hF3 : ∀ j : ℕ, (v ≤ histEdge lo hi j ↔ t ≤ (j : ℚ)) := by
    intro j
    rw [htdef, histEdge, div_le_iff hd]
    constructor <;> intro h <;> linarith
  have ht0 : (0 : ℚ) ≤ t := by
    rw [htdef]
    apply div_nonneg _ (le_of_lt hd)
    linarith
  have ht10 : t ≤ 10 := by
    rw [htdef, div_le_iff hd]
    linarith
  simp only [inBin, Bool.and_eq_true, Bool.or_eq_true, decide_eq_true_eq,
    beq_iff_eq]
  rw [hF1, hF2, hF3, binIdx, ← htdef]
  constructor
  · rintro ⟨hle, hlt | ⟨h9, hle10⟩⟩
    · have hfl : ⌊t⌋ = (i : ℤ) := by
        rw [Int.floor_eq_iff]
        push_cast
        push_cast at hlt
        exact ⟨hle, hlt⟩
      omega
    · subst h9
      have hfl9 : (9 : ℤ) ≤ ⌊t⌋ := Int.le_floor.mpr (by push_cast; push_cast at hle; linarith)
      omega
  · intro hmin
    have h0 : (0 : ℤ) ≤ ⌊t⌋ := Int.floor_nonneg.mpr ht0
    by_cases hcase : ⌊t⌋ ≤ 9
    · have hfl : ⌊t⌋ = (i : ℤ) := by omega
      have hti := Int.floor_eq_iff.mp hfl
      refine ⟨by exact_mod_cast hti.1, Or.inl ?_⟩
      push_cast
      push_cast at hti
      linarith [hti.2]
    · have h9i : i = 9 := by omega
      subst h9i
      have hge : (10 : ℤ) ≤ ⌊t⌋ := by omega
      have hfloor_le : ((⌊t⌋ : ℤ) : ℚ) ≤ t := Int.floor_le t
      have h10t : (10 : ℚ) ≤ t := by
        calc (10 : ℚ) = ((10 : ℤ) : ℚ) := by norm_num
        _ ≤ ((⌊t⌋ : ℤ) : ℚ) := by exact_mod_cast hge
        _ ≤ t := hfloor_le
      exact ⟨by push_cast; linarith, Or.inr ⟨rfl, by push_cast; linarith⟩⟩

/-- Sums of pointwise sums split. -/
lemma sum_map_add (l : List ℕ) (f g : ℕ → ℕ) :
    (l.map fun i => f i + g i).sum = (l.map f).sum + (l.map g).sum := by
  induction l with
  | nil => rfl
  | cons x xs ih =>
    simp only [List.map_cons, List.sum_cons, ih]
    omega

/-- The indicator of a fixed `k < n` sums to 1 over `range n`. -/
lemma sum_indicator_range (n k : ℕ) (hk : k < n) :
    ((List.range n).map fun i => if k = i then 1 else 0).sum = 1 := by
  induction n with
  | zero => omega
  | succ m ih =>
    rw [List.range_succ, List.map_append, List.sum_append]
    by_cases hkm : k = m
    · subst hkm
      have hzero : ((List.range k).map fun i => if k = i then 1 else 0).sum = 0 := by
        apply List.sum_eq_zero
        intro x hx
        obtain ⟨j, hj, rfl⟩ := List.mem_map.mp hx
        have : k ≠ j := by
          have := List.mem_range.mp hj
          omega
        simp [this]
      simp [hzero]
    · have hklt : k < m := by omega
      rw [ih hklt]
      simp [hkm]

/-- Counting the fibers of a function with values below 10 recovers the
length of the list. -/
lemma sum_counts_partition (f : ℚ → ℕ) (l : List ℚ)
    (hf : ∀ v ∈ l, f v < 10) :
    ((List.range 10).map fun i => (l.filter fun v => f v == i).length).sum
      = l.length := by
  induction l with
  | nil => simp
  | cons x xs ih =>
    have hx10 : f x < 10 := hf x (List.mem_cons_self _ _)
    have ihx := ih fun v hv => hf v (List.mem_cons_of_mem _ hv)
    have hstep : ∀ i : ℕ, ((x :: xs).filter fun v => f v == i).length
        = (if f x = i then 1 else 0) + (xs.filter fun v => f v == i).length := by
      intro i
      by_cases hfx : f x = i
      · simp [List.filter_cons, hfx]
        omega
      · simp [List.filter_cons, hfx]
    calc ((List.range 10).map fun i =>
            ((x :: xs).filter fun v => f v == i).length).sum
        = ((List.range 10).map fun i => (if f x = i then 1 else 0) +
            (xs.filter fun v => f v == i).length).sum := by
          apply congrArg
          apply List.map_congr_left
          intro i _
          exact hstep i
      _ = ((List.range 10).map fun i => if f x = i then 1 else 0).sum +
            ((List.range 10).map fun i =>
              (xs.filter fun v => f v == i).length).sum :=
          sum_map_add _ _ _
      _ = 1 + xs.length := by rw [sum_indicator_range 10 (f x) hx10, ihx]
      _ = (x :: xs).length := by
          rw [List.length_cons]
          omega

/-- Histogram conservation over any nonempty data list: the 10 numpy bin
counts sum to the number of data points. -/
lemma histCounts_sum (l : List ℚ) (hne : l ≠ []) :
    (histCounts l (histLoHi l).1 (histLoHi l).2).sum = l.length := by
  obtain ⟨hlh, hbound⟩ := histLoHi_spec l hne
  have hcong : ∀ i ∈ List.range 10,
      (l.filter (inBin (histLoHi l).1 (histLoHi l).2 i)).length
        = (l.filter fun v => binIdx (histLoHi l).1 (histLoHi l).2 v == i).length := by
    intro i hi10
    apply congrArg
    apply List.filter_congr
    intro v hv
    have hbv := hbound v hv
    have hiff := inBin_iff_binIdx (histLoHi l).1 (histLoHi l).2 v hlh hbv.1
      hbv.2 i (List.mem_range.mp hi10)
    have hiff2 : (inBin (histLoHi l).1 (histLoHi l).2 i v = true) ↔
        ((binIdx (histLoHi l).1 (histLoHi l).2 v == i) = true) :=
      hiff.trans beq_iff_eq.symm
    cases hb1 : inBin (histLoHi l).1 (histLoHi l).2 i v <;>
      cases hb2 : binIdx (histLoHi l).1 (histLoHi l).2 v == i <;>
      simp_all
  rw [histCounts, List.map_congr_left hcong]
  apply sum_counts_partition
  intro v hv
  have : binIdx (histLoHi l).1 (histLoHi l).2 v ≤ 9 := min_le_right _ _
  omega

/-- C9: every judgment response carries exactly 10 histogram counts and
11 edges, and the counts sum to the number of simulated samples, 4320. -/
theorem judge_histogram_conservation (model : List (String × ℚ) → ℚ)
    (fcols cats : List String) (p : JudgeIn) :
    (marketPrices model fcols cats p).length = 4320 ∧
    (judge_price model fcols cats p).hist_counts.length = 10 ∧
    (judge_price model fcols cats p).hist_edges.length = 11 ∧
    (judge_price model fcols cats p).hist_counts.sum = 4320 := by
  have hlen : (marketPrices model fcols cats p).length = 4320 := by
    rw [marketPrices, List.length_map, gridVariants, List.length_map]
    exact gridTuples_length
  have hne : marketPrices model fcols cats p ≠ [] := by
    intro h
    rw [h] at hlen
    simp at hlen
  refine ⟨hlen, ?_, ?_, ?_⟩
  · show (histCounts (marketPrices model fcols cats p)
        (histLoHi (marketPrices model fcols cats p)).1
        (histLoHi (marketPrices model fcols cats p)).2).length = 10
    rw [histCounts, List.length_map, List.length_range]
  · show (histEdges (histLoHi (marketPrices model fcols cats p)).1
        (histLoHi (marketPrices model fcols cats p)).2).length = 11
    rw [histEdges, List.length_map, List.length_range]
  · show (histCounts (marketPrices model fcols cats p)
        (histLoHi (marketPrices model fcols cats p)).1
        (histLoHi (marketPrices model fcols cats p)).2).sum = 4320
    rw [histCounts_sum _ hne, hlen]


/-- The grouped association list written out: the five static groups and
the city group restricted to the active city indicators. -/
lemma groupedVals_explicit (fcols : List String) (featShap : String → ℚ)
    (df : List (String × ℚ)) :
    groupedVals fcols featShap df =
      [("المساحة و الغرف", groupSum featShap ["مساحة البناء", "عدد الغرف"]),
       ("الحمامات", groupSum featShap ["عدد الحمامات"]),
       ("حالة العقار", groupSum featShap ["مفروشة", "عمر البناء", "العقار مرهون"]),
       ("الدفع", groupSum featShap ["طريقة الدفع"]),
       ("الطابق", groupSum featShap ["الطابق"]),
       ("المدينة", groupSum featShap (activeCities fcols df))] := rfl

/-- Rounding to 2 decimals moves a value by at most half a hundredth. -/
lemma abs_round2_err (q : ℚ) : |round2 q - q| ≤ 1/200 := by
  rw [round2]
  have h := abs_sub_round (q * 100)
  rw [abs_sub_comm] at h
  have heq : ((round (q * 100) : ℤ) : ℚ) / 100 - q =
      (((round (q * 100) : ℤ) : ℚ) - q * 100) / 100 := by ring
  rw [heq, abs_div, abs_of_pos (by norm_num : (0 : ℚ) < 100)]
  linarith

/-- Rounding changes the absolute value by at most half a hundredth. -/
lemma abs_abs_round2 (q : ℚ) : |(|round2 q| - |q|)| ≤ 1/200 :=
  le_trans (abs_abs_sub_abs_le_abs_sub _ _) (abs_round2_err q)

/-- Summed over a list, the per-element rounding errors accumulate to at
most half a hundredth per element. -/
lemma sum_abs_round2_bound (xs : List ℚ) :
    |(xs.map fun q => |round2 q|).sum - (xs.map fun q => |q|).sum| ≤
      xs.length * (1/200) := by
  induction xs with
  | nil => simp
  | cons x l ih =>
    simp only [List.map_cons, List.sum_cons, List.length_cons]
    have h1 := abs_le.mp (abs_abs_round2 x)
    have h2 := abs_le.mp ih
    rw [abs_le]
    push_cast
    constructor <;> linarith

/-- Scaling by `100 / s` factors out of the summed absolute values. -/
lemma sum_abs_div_mul (L : List (String × ℚ)) (s : ℚ) (hpos : 0 < s) :
    ((L.map fun g => |g.2 / s * 100|).sum) =
      ((L.map fun g => |g.2|).sum) * 100 / s := by
  induction L with
  | nil => simp
  | cons x l ih =>
    simp only [List.map_cons, List.sum_cons, ih]
    rw [abs_mul, abs_div, abs_of_pos hpos,
      abs_of_pos (by norm_num : (0 : ℚ) < (100 : ℚ))]
    ring

/-- Membership in a stable descending insertion. -/
lemma mem_insertDesc (x y : String × ℚ) :
    ∀ l : List (String × ℚ), (y ∈ insertDesc x l ↔ y = x ∨ y ∈ l) := by
  intro l
  induction l with
  | nil => simp [insertDesc]
  | cons z zs ih =>
    rw [insertDesc]
    split_ifs with hcmp
    · rw [List.mem_cons, ih, List.mem_cons]
      try tauto
    · rw [List.mem_cons, List.mem_cons]
      try tauto

/-- The stable descending sort permutes membership. -/
lemma mem_sortDesc (y : String × ℚ) :
    ∀ l : List (String × ℚ), (y ∈ sortDesc l ↔ y ∈ l) := by
  intro l
  induction l with
  | nil => simp [sortDesc]
  | cons x xs ih =>
    rw [sortDesc, mem_insertDesc, ih, List.mem_cons]

/-- The strict ranking order of the output: strictly larger magnitude
first, ties resolved by the static group-definition position. -/
def rnkR (a b : String × ℚ) : Prop :=
  |b.2| < |a.2| ∨ (|a.2| = |b.2| ∧ groupIdx a.1 < groupIdx b.1)

/-- Inserting an element whose definition position precedes everything in
an `rnkR`-sorted list keeps the list `rnkR`-sorted. -/
lemma insertDesc_pairwise (x : String × ℚ) :
    ∀ L : List (String × ℚ), L.Pairwise rnkR →
      (∀ y ∈ L, groupIdx x.1 < groupIdx y.1) →
      (insertDesc x L).Pairwise rnkR := by
  intro L
  induction L with
  | nil =>
    intro _ _
    simp [insertDesc]
  | cons y ys ih =>
    intro hL hidx
    rcases List.pairwise_cons.mp hL with ⟨hyz, hys⟩
    rw [insertDesc]
    split_ifs with hcmp
    · apply List.pairwise_cons.mpr
      constructor
      · intro z hz
        rcases (mem_insertDesc x z ys).mp hz with rfl | hz'
        · exact Or.inl hcmp
        · exact hyz z hz'
      · exact ih hys fun z hz => hidx z (List.mem_cons_of_mem _ hz)
    · push_neg at hcmp
      apply List.pairwise_cons.mpr
      refine ⟨?_, hL⟩
      intro z hz
      rcases List.mem_cons.mp hz with rfl | hz'
      · rcases lt_or_eq_of_le hcmp with hlt | heq
        · exact Or.inl hlt
        · exact Or.inr ⟨heq.symm, hidx z (List.mem_cons_self _ _)⟩
      · have hzy : |z.2| ≤ |y.2| := by
          rcases hyz z hz' with h | h
          · exact le_of_lt h
          · exact le_of_eq h.1.symm
        rcases lt_or_eq_of_le (le_trans hzy hcmp) with hlt | heq
        · exact Or.inl hlt
        · exact Or.inr ⟨heq.symm, hidx z (List.mem_cons_of_mem _ hz')⟩

/-- The stable descending sort of a list with strictly increasing
definition positions is `rnkR`-sorted: descending absolute value, ties in
definition order. -/
lemma sortDesc_pairwise :
    ∀ l : List (String × ℚ),
      (l.Pairwise fun a b => groupIdx a.1 < groupIdx b.1) →
      (sortDesc l).Pairwise rnkR := by
  intro l
  induction l with
  | nil =>
    intro _
    simp [sortDesc]
  | cons x xs ih =>
    intro hl
    rcases List.pairwise_cons.mp hl with ⟨hx, hxs⟩
    rw [sortDesc]
    exact insertDesc_pairwise x (sortDesc xs) (ih hxs)
      fun y hy => hx y ((mem_sortDesc y xs).mp hy)

/-- The normalized `ranked` list carries the six group names in definition
order. -/
lemma rankedVals_idx_pairwise (fcols : List String) (featShap : String → ℚ)
    (df : List (String × ℚ)) :
    (rankedVals fcols featShap df).Pairwise
      fun a b => groupIdx a.1 < groupIdx b.1 := by
  apply List.pairwise_map.mp
  have hidxs : (rankedVals fcols featShap df).map (fun b => groupIdx b.1) =
      [0, 1, 2, 3, 4, 5] := rfl
  rw [hidxs]
  decide

/-- Counterexample to C6 as stated: when every raw attribution is 0, the
epsilon guard leaves every normalized percentage at 0, so the absolute
values of the pre-truncation percentages sum to 0, not 100 (not within
any rounding tolerance). -/
theorem group_shap_normalization_cex :
    (((rankedVals [] (fun _ => 0) []).map fun g => |g.2|).sum = 0) ∧
    ¬ (|(((rankedVals [] (fun _ => 0) []).map fun g => |g.2|).sum) - 100| ≤
        3/100) := by
  have hsum : ((rankedVals [] (fun _ => 0) []).map fun g => |g.2|).sum = 0 := by
    unfold rankedVals
    rw [groupedVals_explicit]
    simp [groupSum, activeCities, cityFeatures, totalAbs, round2]
  exact ⟨hsum, by rw [hsum]; norm_num⟩

/-- C6 (amended): whenever some group aggregate is nonzero, the absolute
values of the pre-truncation normalized percentages sum to 100 within the
2-decimal rounding tolerance (6 groups × 0.005 = 0.03); the returned
mapping has at most 4 entries, all drawn from the normalized groups, in
descending order of absolute value with ties broken by the static
group-definition order.  (When every aggregate is 0 the epsilon guard
makes every percentage 0.) -/
theorem group_shap_values_spec (fcols : List String) (featShap : String → ℚ)
    (df : List (String × ℚ)) :
    ((((groupedVals fcols featShap df).map fun g => |g.2|).sum ≠ 0) →
      |(((rankedVals fcols featShap df).map fun g => |g.2|).sum) - 100| ≤
        3/100) ∧
    (group_shap_values fcols featShap df).length ≤ 4 ∧
    (∀ x ∈ group_shap_values fcols featShap df,
      x ∈ rankedVals fcols featShap df) ∧
    (group_shap_values fcols featShap df).Pairwise rnkR := by
  refine ⟨?_, ?_, ?_, ?_⟩
  · intro hT
    have hs0 : 0 ≤ ((groupedVals fcols featShap df).map fun g => |g.2|).sum := by
      apply List.sum_nonneg
      intro x hx
      obtain ⟨g, -, rfl⟩ := List.mem_map.mp hx
      exact abs_nonneg _
    have hpos : 0 < ((groupedVals fcols featShap df).map fun g => |g.2|).sum :=
      lt_of_le_of_ne hs0 (Ne.symm hT)
    have htot : totalAbs (groupedVals fcols featShap df) =
        ((groupedVals fcols featShap df).map fun g => |g.2|).sum := by
      rw [totalAbs, if_neg hT]
    have hb := sum_abs_round2_bound
      ((groupedVals fcols featShap df).map fun g =>
        g.2 / (((groupedVals fcols featShap df).map fun g => |g.2|).sum) * 100)
    rw [List.map_map, List.map_map, List.length_map] at hb
    simp only [Function.comp_def] at hb
    have h100 : (((groupedVals fcols featShap df).map fun g =>
        |g.2 / (((groupedVals fcols featShap df).map fun g => |g.2|).sum) * 100|).sum)
        = 100 := by
      rw [sum_abs_div_mul _ _ hpos]
      field_simp
    rw [h100] at hb
    have hlen : (groupedVals fcols featShap df).length = 6 := by
      rw [groupedVals_explicit]
      rfl
    rw [hlen] at hb
    unfold rankedVals
    rw [List.map_map]
    simp only [Function.comp_def]
    rw [htot]
    rw [abs_le] at hb ⊢
    constructor <;> linarith [hb.1, hb.2]
  · rw [group_shap_values, List.length_take]
    exact min_le_left _ _
  · intro x hx
    have h1 : x ∈ sortDesc (rankedVals fcols featShap df) :=
      (List.take_sublist _ _).subset hx
    exact (mem_sortDesc x _).mp h1
  · exact List.Pairwise.sublist (List.take_sublist _ _)
      (sortDesc_pairwise _ (rankedVals_idx_pairwise fcols featShap df))


/-- Witness for C6 (amended): with every raw attribution equal to 1, the
group aggregates are nonzero and the theorem's conclusions hold. -/
theorem group_shap_values_spec_witness :
    |(((rankedVals [] (fun _ => 1) []).map fun g => |g.2|).sum) - 100| ≤
        3/100 ∧
    (group_shap_values [] (fun _ => 1) []).length ≤ 4 ∧
    (∀ x ∈ group_shap_values [] (fun _ => 1) [],
      x ∈ rankedVals [] (fun _ => 1) []) ∧
    (group_shap_values [] (fun _ => 1) []).Pairwise rnkR := by
  have h := group_shap_values_spec [] (fun _ => 1) []
  refine ⟨h.1 ?_, h.2.1, h.2.2.1, h.2.2.2⟩
  rw [groupedVals_explicit]
  norm_num [groupSum, activeCities, cityFeatures]

/-- Witness for C7 (amended) at a concrete model and payload. -/
theorem judge_response_rounding_witness :
    isRounded2 ((judge_price exModel [] [] exPayload).listed_price) ∧
    isRounded2 ((judge_price exModel [] [] exPayload).predicted_price) ∧
    isRounded2 ((judge_price exModel [] [] exPayload).market_mean) ∧
    isRounded2 ((judge_price exModel [] [] exPayload).market_median) ∧
    isRounded2 ((judge_price exModel [] [] exPayload).price_q1) ∧
    isRounded2 ((judge_price exModel [] [] exPayload).price_q3) ∧
    (∀ x ∈ (judge_price exModel [] [] exPayload).price_range, isRounded2 x) ∧
    (judge_price exModel [] [] exPayload).hist_edges =
      histEdges (histLoHi (marketPrices exModel [] [] exPayload)).1
        (histLoHi (marketPrices exModel [] [] exPayload)).2 :=
  judge_response_rounding exModel [] [] exPayload

end Aqari
